import Mathlib

/-!
Verification of the near-field diffraction simulation / orientation-indexing
core (scripts/new_simulate_nf.py) and of the beam rotation-matrix constructor
(hexrd/transforms/xf_numba.py).

Modelling conventions: floating-point values are embedded as rationals (the
relevant code uses only field arithmetic, comparisons and floor, all exact on
ℚ); numpy arrays are embedded as lists or as index functions; code that can
raise is embedded as Option/Except-valued functions.
-/

namespace NfSim

/-- A projected reflection: the detector (x, y) coordinates produced by
projection onto the detector plane together with its omega rotation angle.
In the source these arrive as one row of `det_xy` paired with the matching
entry of `all_angs[:, 2]` (or `angles` in the grand loop). -/
structure RPoint where
  x : ℚ
  y : ℚ
  w : ℚ
deriving DecidableEq

/-- Quantization parameters of the experiment: base offset and inverse step
size per axis (x, y, angle) and the clip bounds (columns, rows).  In the
source: `experiment.base`, `experiment.inv_deltas`, `experiment.clip_vals`. -/
structure QuantParams where
  base0 : ℚ
  base1 : ℚ
  base2 : ℚ
  invd0 : ℚ
  invd1 : ℚ
  invd2 : ℚ
  clip0 : ℤ
  clip1 : ℤ
deriving DecidableEq

/-- Source: `x = int(np.floor((coords[i, 0] - base[0]) * inv_deltas[0]))`. -/
def quantX (P : QuantParams) (p : RPoint) : ℤ :=
  Int.floor ((p.x - P.base0) * P.invd0)

/-- Source: `y = int(np.floor((coords[i, 1] - base[1]) * inv_deltas[1]))`. -/
def quantY (P : QuantParams) (p : RPoint) : ℤ :=
  Int.floor ((p.y - P.base1) * P.invd1)

/-- Source: `z = int(np.floor((angles[i] - base[2]) * inv_deltas[2]))`. -/
def quantZ (P : QuantParams) (p : RPoint) : ℤ :=
  Int.floor ((p.w - P.base2) * P.invd2)

/-- A point survives the clip tests of `_quant_and_clip`,
`_quant_and_clip_confidence` and `_write_pixels` iff neither the x test
`x < 0 or x >= clip_vals[0]` nor the y test `y < 0 or y >= clip_vals[1]`
triggers `continue`.  Note that the angle axis is not examined. -/
def keepPoint (P : QuantParams) (p : RPoint) : Bool :=
  if quantX P p < 0 ∨ P.clip0 ≤ quantX P p then false
  else if quantY P p < 0 ∨ P.clip1 ≤ quantY P p then false
  else true

/-- Embedding of `_quant_and_clip` (scripts/new_simulate_nf.py, lines
671-710): quantize each point, drop it when the x test or the y test fires,
otherwise emit the triple `(x, y, z)`; the output keeps input order. -/
def _quant_and_clip (P : QuantParams) (ps : List RPoint) : List (ℤ × ℤ × ℤ) :=
  ps.filterMap fun p =>
    if quantX P p < 0 ∨ P.clip0 ≤ quantX P p then none
    else if quantY P p < 0 ∨ P.clip1 ≤ quantY P p then none
    else some (quantX P p, quantY P p, quantZ P p)

/-- Embedding of `_write_pixels` (scripts/new_simulate_nf.py, lines 377-393):
for each surviving point, set `image[z, y, x] = True`; the image volume is
modelled as a boolean index function. -/
def _write_pixels (P : QuantParams) (ps : List RPoint) (image : ℤ → ℤ → ℤ → Bool) :
    ℤ → ℤ → ℤ → Bool :=
  ps.foldl (fun img p =>
    if quantX P p < 0 ∨ P.clip0 ≤ quantX P p then img
    else if quantY P p < 0 ∨ P.clip1 ≤ quantY P p then img
    else fun z y x =>
      if z = quantZ P p ∧ y = quantY P p ∧ x = quantX P p then true else img z y x) image

/-- One iteration of the accumulation loop of `_quant_and_clip_confidence`
(scripts/new_simulate_nf.py, lines 712-749): the accumulator is the pair
`(in_sensor, matches)`; a clipped point leaves it unchanged, a surviving point
increments `in_sensor` and adds `image[z, y, x]` (a boolean, read as 0/1) to
`matches`. -/
def confStep (image : ℤ → ℤ → ℤ → Bool) (P : QuantParams) (acc : ℕ × ℕ) (p : RPoint) :
    ℕ × ℕ :=
  if quantX P p < 0 ∨ P.clip0 ≤ quantX P p then acc
  else if quantY P p < 0 ∨ P.clip1 ≤ quantY P p then acc
  else (acc.1 + 1, acc.2 + (if image (quantZ P p) (quantY P p) (quantX P p) then 1 else 0))

/-- Embedding of `_quant_and_clip_confidence` (scripts/new_simulate_nf.py,
lines 712-749).  The source ends with `return float(matches)/float(in_sensor)`
with no guard on `in_sensor`; when `in_sensor = 0` that division by zero is a
raise (python error model) or a NaN (IEEE), so the embedding returns `none` in
that case and `some (matches / in_sensor)` otherwise. -/
def _quant_and_clip_confidence (image : ℤ → ℤ → ℤ → Bool) (P : QuantParams)
    (ps : List RPoint) : Option ℚ :=
  let r := ps.foldl (confStep image P) (0, 0)
  if r.1 = 0 then none else some ((r.2 : ℚ) / (r.1 : ℚ))

/-- Modelled from NumPy/numba array-indexing semantics for the unchecked frame
axis of `image[z, y, x]`: an index in `[0, nframes)` resolves to itself, a
negative index in `[-nframes, 0)` wraps once by adding the axis length, and any
other index is out of bounds (an `IndexError` under checked semantics, an
unchecked out-of-bounds access under numba) — it does not wrap modulo the
frame count. -/
def npFrameIndex (nframes : ℕ) (z : ℤ) : Option ℤ :=
  if 0 ≤ z ∧ z < (nframes : ℤ) then some z
  else if -(nframes : ℤ) ≤ z ∧ z < 0 then some (z + nframes)
  else none

/-- Chunk start offsets of the grand loop: `chunks = xrange(0, n_coords,
chunk_size)` (scripts/new_simulate_nf.py, line 537). -/
def chunkStarts (n cs : ℕ) : List ℕ :=
  (List.range ((n + cs - 1) / cs)).map (· * cs)

/-- Chunk ranges: both the serial path (line 552) and `multiproc_inner_loop`
(line 565) compute `chunk_stop = min(n_coords, chunk_start + chunk_size)`. -/
def chunkRanges (n cs : ℕ) : List (ℕ × ℕ) :=
  (chunkStarts n cs).map fun s => (s, min n (s + cs))

/-- Membership of a voxel index in a chunk range `[start, stop)`. -/
def inChunk (i : ℕ) (c : ℕ × ℕ) : Bool :=
  decide (c.1 ≤ i ∧ i < c.2)

/-- Write one cell of the confidence matrix: `confidence[igrn, icrd] = v`. -/
def writeCell (M : ℕ → ℕ → ℚ) (g i : ℕ) (v : ℚ) : ℕ → ℕ → ℚ :=
  fun g2 i2 => if g2 = g ∧ i2 = i then v else M g2 i2

/-- Embedding of `_grand_loop_inner` (scripts/new_simulate_nf.py, lines
489-510): for `icrd, igrn` in `product(xrange(start, stop), xrange(n_angles))`
write `confidence[igrn, icrd] = score igrn icrd`.  `score g i` stands for the
pure per-cell computation `_quant_and_clip_confidence` applied to the
projection of grain `g`'s angle table at coordinate `i` — a deterministic
function of the fixed read-only inputs (image volume, angle tables,
coordinates, experiment). -/
def _grand_loop_inner (score : ℕ → ℕ → ℚ) (nGrains : ℕ) (M : ℕ → ℕ → ℚ)
    (start stop : ℕ) : ℕ → ℕ → ℚ :=
  (List.range' start (stop - start)).foldl
    (fun M1 icrd =>
      (List.range nGrains).foldl
        (fun M2 igrn => writeCell M2 igrn icrd (score igrn icrd)) M1)
    M

/-- Execution of `_grand_loop_inner` over a list of chunk ranges, in list
order.  The serial path of `_grand_loop_precomp` runs `chunkRanges n cs` in
order; the multiprocessing path runs the same chunks in an arbitrary
completion order (`imap_unordered`), i.e. some permutation of that list. -/
def runChunks (score : ℕ → ℕ → ℚ) (nGrains : ℕ) (M0 : ℕ → ℕ → ℚ)
    (l : List (ℕ × ℕ)) : ℕ → ℕ → ℚ :=
  l.foldl (fun M c => _grand_loop_inner score nGrains M c.1 c.2) M0

/-- A voxel index is covered by some chunk of the list; chunk `c` writes the
coordinate range `[c.1, c.1 + (c.2 - c.1))`. -/
def coveredBy (l : List (ℕ × ℕ)) (i : ℕ) : Prop :=
  ∃ c ∈ l, c.1 ≤ i ∧ i < c.1 + (c.2 - c.1)

instance (l : List (ℕ × ℕ)) (i : ℕ) : Decidable (coveredBy l i) := by
  unfold coveredBy
  infer_instance

/-- Sample per-cell score function, for concrete instantiations. -/
def sampleScore : ℕ → ℕ → ℚ := fun g i => (g : ℚ) + (i : ℚ) / 2

/-- Zero-initialised confidence matrix, for concrete instantiations. -/
def zeroMatrix : ℕ → ℕ → ℚ := fun _ _ => 0

/-- Reference-file content for concrete instantiations of the checking
handler: the key `confidence` maps to a two-element array. -/
def sampleRefs : String → Option (List ℚ) := fun k =>
  if k = "confidence" then some [1/2, 1/2] else none

/-- Produced value for concrete instantiations of the checking handler:
longer than the reference, matching on the overlap. -/
def sampleValue : List ℚ := [1/2, 1/2, 3]

/-- Pixel read used by the dilation, with the out-of-frame neighbourhood
reading as `False` (skimage pads with the minimum for binary dilation). -/
def getPix (f : List (List Bool)) (r c : ℤ) : Bool :=
  if 0 ≤ r ∧ 0 ≤ c then (f.getD r.toNat []).getD c.toNat false else false

/-- One output pixel of the binary dilation with the structuring element
`np.ones((2*row_dilation + 1, 2*col_dilation + 1))`: the maximum of the input
over the centred window. -/
def dilatePix (rd cd : ℕ) (f : List (List Bool)) (r c : ℕ) : Bool :=
  (List.range (2 * rd + 1)).any fun dr =>
    (List.range (2 * cd + 1)).any fun dc =>
      getPix f ((r : ℤ) + dr - rd) ((c : ℤ) + dc - cd)

/-- Binary dilation of one angular frame (`ski_dilation(image_stack[i_image],
dilation_shape, out=image_stack_dilated[i_image])`). -/
def ski_dilation (rd cd : ℕ) (f : List (List Bool)) : List (List Bool) :=
  (List.range f.length).map fun r =>
    (List.range ((f.getD r []).length)).map fun c => dilatePix rd cd f r c

/-- State of the dilation pass of `_grand_loop_precomp` (lines 513-526): the
source stack `image_stack` and the separately allocated output
`image_stack_dilated = np.empty_like(image_stack)`.  The two buffers are
distinct allocations, modelled as distinct fields. -/
structure DilationState where
  src : List (List (List Bool))
  dst : List (List (List Bool))

/-- One iteration of the dilation loop: frame `i` of the output buffer is
overwritten with the dilation of frame `i` of the source; the source buffer is
not touched. -/
def dilateStep (rd cd : ℕ) (s : DilationState) (i : ℕ) : DilationState :=
  { s with dst := s.dst.set i (ski_dilation rd cd (s.src.getD i [])) }

/-- The dilation pass: iterate `dilateStep` over all frame indices, starting
from the source stack and the freshly allocated (uninitialised, hence
arbitrary) output buffer `dst0`. -/
def dilation_pass (rd cd : ℕ) (stack dst0 : List (List (List Bool))) : DilationState :=
  (List.range stack.length).foldl (dilateStep rd cd) ⟨stack, dst0⟩

/-- Element tolerance of `np.allclose` with its default tolerances
`rtol=1e-5`, `atol=1e-8`: `|a - b| <= atol + rtol * |b|`. -/
def np_isclose (a b : ℚ) : Bool :=
  decide (|a - b| ≤ 1 / 10 ^ 8 + 1 / 10 ^ 5 * |b|)

/-- `np.allclose` on two arrays of equal length (the handler only compares
equal-length truncations). -/
def np_allclose (a b : List ℚ) : Bool :=
  (a.zip b).all fun p => np_isclose p.1 p.2

/-- Verdict logged by the checking result handler. -/
inductive CheckVerdict where
  | fail
  | passTrunc
  | passFull
deriving DecidableEq

/-- Embedding of `CheckingResultHandler.handle_result` (scripts/
new_simulate_nf.py, lines 158-207).  Keys `experiment` and `image_stack` are
ignored; a missing reference key is logged and the subsequent comparison
raises a `TypeError` that the handler swallows, so no verdict is produced
(`none`).  Otherwise both arrays are truncated to
`check_len = min(len(reference), len(value))` and compared with
`np.allclose`; the verdict is FAIL when the comparison fails, PARTIAL PASS
(`passTrunc`) when it succeeds and `len(value) > check_len`, and FULL PASS
otherwise. -/
def checking_handle_result (key : String) (refs : String → Option (List ℚ))
    (value : List ℚ) : Option CheckVerdict :=
  if key = "experiment" ∨ key = "image_stack" then none
  else
    match refs key with
    | none => none
    | some reference =>
        let check_len := min reference.length value.length
        let test_passed := np_allclose (value.take check_len) (reference.take check_len)
        if test_passed = false then some CheckVerdict.fail
        else if check_len < value.length then some CheckVerdict.passTrunc
        else some CheckVerdict.passFull

/-- Constant `cnst.sqrt_epsf` of hexrd: the square root of the double-precision
machine epsilon `2⁻⁵²`, hence exactly `2⁻²⁶`. -/
def sqrt_epsf : ℚ := 1 / 2 ^ 26

/-- Embedding of `make_beam_rmat` (src/hexrd/transforms/xf_numba.py, lines
415-464).  The body first computes `bvec_mag` (modelled by its square, so the
degeneracy test `bvec_mag < cnst.sqrt_epsf` becomes the equivalent
`bvec_mag² < sqrt_epsf²` on ℚ); both degeneracy tests have `pass` bodies and
no effect.  The next statement, `out[i, 2] = -bvec_l[i] / bvec_mag` (line
430), reads the local variable `out`, which is first assigned only at line
445 (`out = np.empty((3,3))`), so in Python every call raises
`UnboundLocalError` before any matrix element is produced; the embedding
therefore returns that error unconditionally after the no-op check. -/
def make_beam_rmat (bvec_l evec_l : ℚ × ℚ × ℚ) : Except String (Fin 3 → Fin 3 → ℚ) :=
  let bvec_magSq : ℚ := bvec_l.1 ^ 2 + bvec_l.2.1 ^ 2 + bvec_l.2.2 ^ 2
  let _degenerate_beam : Bool := decide (bvec_magSq < sqrt_epsf ^ 2)
  let _evec_unused : ℚ := evec_l.1
  Except.error "UnboundLocalError: local variable out referenced before assignment"

/-- Attribute access on the controller argument: `None` models the default
`controller=None`; accessing any attribute of `None` raises
`AttributeError`. -/
def ctlCall (controller : Option Unit) (attr : String) : Except String Unit :=
  match controller with
  | none => Except.error ("AttributeError: NoneType object has no attribute " ++ attr)
  | some _ => Except.ok ()

/-- Embedding of `simulate_diffractions` (scripts/new_simulate_nf.py, lines
396-441).  `projected` holds, per grain, the projected detector coordinates
paired with the wrapped omega angles (the external projection pipeline
`oscillAnglesOfHKLs` / `_filter_hkls_eta_ome` / `mapAngle` /
`_project_on_detector_plane` is an out-of-scope collaborator, so its output is
a parameter).  The function calls `controller.start`, then per grain writes
pixels and calls `controller.update`, then `controller.finish`. -/
def simulate_diffractions (controller : Option Unit) (P : QuantParams)
    (projected : List (List RPoint)) : Except String (ℤ → ℤ → ℤ → Bool) := do
  let image0 : ℤ → ℤ → ℤ → Bool := fun _ _ _ => false
  _ ← ctlCall controller "start"
  let image ← projected.foldlM (fun img ps => do
    let img2 := _write_pixels P ps img
    _ ← ctlCall controller "update"
    pure img2) image0
  _ ← ctlCall controller "finish"
  pure image

/-- Outcome of `np.load(cache_file)` in `get_simulate_diffractions`: either
the image stack loads from the cache, or loading raises and the stack is
recomputed. -/
inductive CacheLoad where
  | ok (image : ℤ → ℤ → ℤ → Bool)
  | failed

/-- Embedding of `get_simulate_diffractions` (scripts/new_simulate_nf.py,
lines 361-374): try loading the cache; on failure call
`simulate_diffractions` (passing the controller through) and save; then call
`controller.handle_result('image_stack', image_stack)` unconditionally and
return the stack. -/
def get_simulate_diffractions (cache : CacheLoad) (P : QuantParams)
    (projected : List (List RPoint)) (controller : Option Unit) :
    Except String (ℤ → ℤ → ℤ → Bool) := do
  let image_stack ← match cache with
    | CacheLoad.ok image => pure image
    | CacheLoad.failed => simulate_diffractions controller P projected
  _ ← ctlCall controller "handle_result"
  pure image_stack

/-- Image volume that is off everywhere (for concrete instantiations). -/
def falseImage : ℤ → ℤ → ℤ → Bool := fun _ _ _ => false

/-- Image volume that is lit everywhere (for concrete instantiations). -/
def trueImage : ℤ → ℤ → ℤ → Bool := fun _ _ _ => true

/-- Concrete quantization parameters: base `(0,0,0)`, inverse deltas
`(1,1,1)`, clip bounds `(2,2)` — a 2x2 detector with unit pixels. -/
def sampleParams : QuantParams := ⟨0, 0, 0, 1, 1, 1, 2, 2⟩

end NfSim

namespace NfSim

theorem keepPoint_iff (P : QuantParams) (p : RPoint) :
    keepPoint P p = true ↔
      0 ≤ quantX P p ∧ quantX P p < P.clip0 ∧ 0 ≤ quantY P p ∧ quantY P p < P.clip1 := by
  unfold keepPoint
  split_ifs with h1 h2 <;> simp <;> omega

theorem quant_and_clip_filter (P : QuantParams) (ps : List RPoint) :
    _quant_and_clip P ps
      = (ps.filter (keepPoint P)).map fun q => (quantX P q, quantY P q, quantZ P q) := by
  induction ps with
  | nil => rfl
  | cons p t ih =>
      by_cases h1 : quantX P p < 0 ∨ P.clip0 ≤ quantX P p
      · have hk : keepPoint P p = false := by simp [keepPoint, h1]
        simpa [_quant_and_clip, List.filterMap_cons, List.filter_cons, h1, hk] using ih
      · by_cases h2 : quantY P p < 0 ∨ P.clip1 ≤ quantY P p
        · have hk : keepPoint P p = false := by simp [keepPoint, h1, h2]
          simpa [_quant_and_clip, List.filterMap_cons, List.filter_cons, h1, h2, hk] using ih
        · have hk : keepPoint P p = true := by simp [keepPoint, h1, h2]
          simpa [_quant_and_clip, List.filterMap_cons, List.filter_cons, h1, h2, hk] using ih

/-- C2: the quantizer keeps a point iff its quantized x index lies in
`[0, clip0)` and its quantized y index lies in `[0, clip1)` (the survivors,
in order, are exactly the filtered, quantized triples); a coordinate exactly
at `base[i]` maps to voxel index 0, and a coordinate exactly at
`base[i] + clip[i] * delta[i]` (with `delta[i] = 1 / inv_delta[i]`) is
excluded on either axis. -/
theorem quant_and_clip_spec (P : QuantParams) (ps : List RPoint) (p : RPoint)
    (hx : 0 < P.invd0) (hy : 0 < P.invd1) :
    (_quant_and_clip P ps
        = (ps.filter (keepPoint P)).map fun q => (quantX P q, quantY P q, quantZ P q))
    ∧ (keepPoint P p = true ↔
        0 ≤ quantX P p ∧ quantX P p < P.clip0 ∧ 0 ≤ quantY P p ∧ quantY P p < P.clip1)
    ∧ (p.x = P.base0 → quantX P p = 0)
    ∧ (p.y = P.base1 → quantY P p = 0)
    ∧ (p.x = P.base0 + P.clip0 / P.invd0 → keepPoint P p = false)
    ∧ (p.y = P.base1 + P.clip1 / P.invd1 → keepPoint P p = false) := by
  refine ⟨quant_and_clip_filter P ps, keepPoint_iff P p, ?_, ?_, ?_, ?_⟩
  · intro h
    unfold quantX
    rw [h]
    simp
  · intro h
    unfold quantY
    rw [h]
    simp
  · intro h
    have hqx : quantX P p = P.clip0 := by
      unfold quantX
      rw [h]
      rw [add_sub_cancel_left, div_mul_cancel₀ _ (ne_of_gt hx)]
      exact Int.floor_intCast _
    unfold keepPoint
    rw [hqx]
    split_ifs with h1 h2 <;> first | rfl | omega
  · intro h
    have hqy : quantY P p = P.clip1 := by
      unfold quantY
      rw [h]
      rw [add_sub_cancel_left, div_mul_cancel₀ _ (ne_of_gt hy)]
      exact Int.floor_intCast _
    unfold keepPoint
    rw [hqy]
    split_ifs with h1 h2 <;> first | rfl | omega

/-- Witness for C2 at concrete inputs (base 0, unit pixels, clip bounds 2). -/
theorem quant_and_clip_spec_witness :
    keepPoint sampleParams ⟨1, 1, 0⟩ = true ↔
      0 ≤ quantX sampleParams ⟨1, 1, 0⟩ ∧ quantX sampleParams ⟨1, 1, 0⟩ < sampleParams.clip0 ∧
      0 ≤ quantY sampleParams ⟨1, 1, 0⟩ ∧ quantY sampleParams ⟨1, 1, 0⟩ < sampleParams.clip1 :=
  (quant_and_clip_spec sampleParams [⟨1, 1, 0⟩] ⟨1, 1, 0⟩
    (by norm_num [sampleParams]) (by norm_num [sampleParams])).2.1

theorem confStep_eq (image : ℤ → ℤ → ℤ → Bool) (P : QuantParams) (acc : ℕ × ℕ) (p : RPoint) :
    confStep image P acc p =
      if keepPoint P p = true then
        (acc.1 + 1, acc.2 + if image (quantZ P p) (quantY P p) (quantX P p) then 1 else 0)
      else acc := by
  by_cases h1 : quantX P p < 0 ∨ P.clip0 ≤ quantX P p
  · simp [confStep, keepPoint, h1]
  · by_cases h2 : quantY P p < 0 ∨ P.clip1 ≤ quantY P p
    · simp [confStep, keepPoint, h1, h2]
    · simp [confStep, keepPoint, h1, h2]

theorem conf_fst (image : ℤ → ℤ → ℤ → Bool) (P : QuantParams) :
    ∀ (ps : List RPoint) (acc : ℕ × ℕ),
      (ps.foldl (confStep image P) acc).1 = acc.1 + (ps.filter (keepPoint P)).length := by
  intro ps
  induction ps with
  | nil => intro acc; simp
  | cons p t ih =>
      intro acc
      rw [List.foldl_cons, List.filter_cons, confStep_eq]
      by_cases hk : keepPoint P p = true
      · rw [if_pos hk, if_pos hk, ih]
        simp only [List.length_cons]
        omega
      · rw [if_neg hk, if_neg hk, ih]

theorem conf_snd_le (image : ℤ → ℤ → ℤ → Bool) (P : QuantParams) :
    ∀ (ps : List RPoint) (acc : ℕ × ℕ), acc.2 ≤ acc.1 →
      (ps.foldl (confStep image P) acc).2 ≤ (ps.foldl (confStep image P) acc).1 := by
  intro ps
  induction ps with
  | nil => intro acc h; simpa using h
  | cons p t ih =>
      intro acc h
      rw [List.foldl_cons, confStep_eq]
      by_cases hk : keepPoint P p = true
      · rw [if_pos hk]
        refine ih _ ?_
        by_cases hb : image (quantZ P p) (quantY P p) (quantX P p) <;> simp [hb] <;> omega
      · rw [if_neg hk]
        exact ih _ h

/-- C1: where the specification requires a defined fallback for a (grain,
voxel) pair with zero surviving reflections, the source divides
`float(matches)` by `float(in_sensor)` with `in_sensor = 0` — a division by
zero (a raise under the python error model, a NaN under IEEE), modelled as
`none`; no fallback value is produced. -/
theorem conf_zero_survivors (image : ℤ → ℤ → ℤ → Bool) (P : QuantParams) (ps : List RPoint)
    (h : ∀ p ∈ ps, keepPoint P p = false) :
    _quant_and_clip_confidence image P ps = none := by
  have hf : ps.filter (keepPoint P) = [] :=
    List.filter_eq_nil_iff.mpr (by intro a ha; simp [h a ha])
  have h1 : (ps.foldl (confStep image P) (0, 0)).1 = 0 := by
    rw [conf_fst, hf]
    rfl
  simp only [_quant_and_clip_confidence]
  rw [if_pos h1]

/-- Witness for C1: a single reflection quantizing to x index 5, outside the
clip bound 2, so zero reflections survive and the division-by-zero fires. -/
theorem conf_zero_survivors_witness :
    _quant_and_clip_confidence falseImage sampleParams [⟨5, 0, 0⟩] = none :=
  conf_zero_survivors falseImage sampleParams [⟨5, 0, 0⟩] (by
    intro p hp
    simp only [List.mem_singleton] at hp
    subst hp
    have h5 : quantX sampleParams ⟨5, 0, 0⟩ = 5 := by norm_num [quantX, sampleParams]
    unfold keepPoint
    rw [h5]
    norm_num [sampleParams])

/-- C3: whenever at least one reflection survives clipping, the confidence
value `matches / in_sensor` is defined and lies in `[0, 1]`; since every
written entry of the confidence matrix is such a value, every written entry
lies in `[0, 1]`. -/
theorem conf_in_unit_interval (image : ℤ → ℤ → ℤ → Bool) (P : QuantParams) (ps : List RPoint)
    (h : ∃ p ∈ ps, keepPoint P p = true) :
    ∃ q, _quant_and_clip_confidence image P ps = some q ∧ 0 ≤ q ∧ q ≤ 1 := by
  obtain ⟨p, hp, hk⟩ := h
  have hmem : p ∈ ps.filter (keepPoint P) := List.mem_filter.mpr ⟨hp, hk⟩
  have hpos : 0 < (ps.filter (keepPoint P)).length := List.length_pos_of_mem hmem
  have h1 : (ps.foldl (confStep image P) (0, 0)).1 = (ps.filter (keepPoint P)).length := by
    rw [conf_fst]
    simp
  have h2 : (ps.foldl (confStep image P) (0, 0)).2 ≤ (ps.foldl (confStep image P) (0, 0)).1 :=
    conf_snd_le image P ps (0, 0) (le_refl 0)
  simp only [_quant_and_clip_confidence]
  rw [if_neg (by omega)]
  refine ⟨_, rfl, ?_, ?_⟩
  · positivity
  · rw [div_le_one (by exact_mod_cast (show 0 < (ps.foldl (confStep image P) (0, 0)).1 by omega))]
    exact_mod_cast h2

/-- Witness for C3: one surviving reflection over a fully lit volume. -/
theorem conf_in_unit_interval_witness :
    ∃ q, _quant_and_clip_confidence trueImage sampleParams [⟨0, 0, 0⟩] = some q ∧
      0 ≤ q ∧ q ≤ 1 :=
  conf_in_unit_interval trueImage sampleParams [⟨0, 0, 0⟩]
    ⟨⟨0, 0, 0⟩, by simp, by norm_num [keepPoint, quantX, quantY, sampleParams]⟩

/-- Counterexample for C6 as stated: over a 4-frame volume, a point whose x
and y indices survive clipping and whose angle quantizes to frame index 4 —
outside `[0, 4)` — does not wrap over the frame count (which would access
frame `4 % 4 = 0`): the access is out of bounds. -/
theorem angle_axis_wrap_counterexample :
    keepPoint sampleParams ⟨0, 0, 4⟩ = true ∧
    quantZ sampleParams ⟨0, 0, 4⟩ = 4 ∧
    npFrameIndex 4 (quantZ sampleParams ⟨0, 0, 4⟩) = none ∧
    ¬ npFrameIndex 4 (quantZ sampleParams ⟨0, 0, 4⟩) = some ((4 : ℤ) % 4) := by
  have hz : quantZ sampleParams ⟨0, 0, 4⟩ = 4 := by norm_num [quantZ, sampleParams]
  refine ⟨?_, hz, ?_, ?_⟩
  · norm_num [keepPoint, quantX, quantY, sampleParams]
  · rw [hz]
    norm_num [npFrameIndex]
  · rw [hz]
    norm_num [npFrameIndex]
    simp

/-- C6 amended: the quantizer applies no clipping on the angle axis —
survival depends only on the x and y tests (the angle can be changed freely
without affecting survival, and `in_sensor` counts exactly the x/y
survivors); the frame index reaches the volume access unchecked, where a
negative index in `[-nframes, 0)` wraps once over the frame count (NumPy
negative indexing) and an index in `[0, nframes)` resolves to itself, but an
index at or above the frame count does not wrap: it is out of bounds. -/
theorem angle_axis_no_clip (P : QuantParams) (p : RPoint) (a : ℚ)
    (image : ℤ → ℤ → ℤ → Bool) (ps : List RPoint) (nframes : ℕ) (z : ℤ)
    (hn : 0 < nframes) :
    (keepPoint P ⟨p.x, p.y, a⟩ = keepPoint P p)
    ∧ ((ps.foldl (confStep image P) (0, 0)).1 = (ps.filter (keepPoint P)).length)
    ∧ (npFrameIndex nframes z
        = if -(nframes : ℤ) ≤ z ∧ z < (nframes : ℤ) then some (z % nframes) else none) := by
  refine ⟨rfl, by rw [conf_fst]; simp, ?_⟩
  by_cases h1 : 0 ≤ z ∧ z < (nframes : ℤ)
  · rw [npFrameIndex, if_pos h1, if_pos (by omega)]
    rw [Int.emod_eq_of_lt h1.1 h1.2]
  · by_cases h2 : -(nframes : ℤ) ≤ z ∧ z < 0
    · rw [npFrameIndex, if_neg h1, if_pos h2, if_pos (by omega)]
      have hmod : z % (nframes : ℤ) = (z + nframes) % nframes := by
        rw [show z + (nframes : ℤ) = z + (nframes : ℤ) * 1 by ring, Int.add_mul_emod_self_left]
      rw [hmod, Int.emod_eq_of_lt (by omega) (by omega)]
    · rw [npFrameIndex, if_neg h1, if_neg h2, if_neg (by omega)]

/-- Witness for C6 (amended) at a negative frame index over a 4-frame
volume. -/
theorem angle_axis_no_clip_witness :
    (keepPoint sampleParams ⟨0, 0, 7⟩ = keepPoint sampleParams ⟨0, 0, 0⟩)
    ∧ (([⟨5, 0, 0⟩, ⟨0, 0, 9⟩] : List RPoint).foldl (confStep falseImage sampleParams) (0, 0)).1
        = (([⟨5, 0, 0⟩, ⟨0, 0, 9⟩] : List RPoint).filter (keepPoint sampleParams)).length
    ∧ (npFrameIndex 4 (-1)
        = if -((4 : ℕ) : ℤ) ≤ (-1 : ℤ) ∧ (-1 : ℤ) < ((4 : ℕ) : ℤ)
          then some ((-1 : ℤ) % (4 : ℕ)) else none) :=
  angle_axis_no_clip sampleParams ⟨0, 0, 0⟩ 7 falseImage [⟨5, 0, 0⟩, ⟨0, 0, 9⟩] 4 (-1)
    (by decide)

theorem countP_congr_mem {α : Type} (l : List α) (p q : α → Bool)
    (h : ∀ a ∈ l, p a = q a) : l.countP p = l.countP q := by
  induction l with
  | nil => rfl
  | cons a t ih =>
      simp only [List.countP_cons, h a (List.mem_cons_self a t)]
      rw [ih fun b hb => h b (List.mem_cons_of_mem a hb)]

/-- C4: for a positive chunk size, the chunk ranges
`[start, min(n, start + chunk_size))` for `start` in `xrange(0, n,
chunk_size)` cover each voxel index of `[0, n)` exactly once — no gaps, no
overlaps. -/
theorem chunks_cover_each_voxel_once (n cs i : ℕ) (hcs : 0 < cs) (hi : i < n) :
    (chunkRanges n cs).countP (inChunk i) = 1 := by
  have hK : (n + cs - 1) / cs = (n - 1) / cs + 1 := by
    have h1 : n + cs - 1 = (n - 1) + cs := by omega
    rw [h1, Nat.add_div_right _ hcs]
  have hdivK : i / cs < (n + cs - 1) / cs := by
    rw [hK]
    exact lt_of_le_of_lt (Nat.div_le_div_right (by omega)) (Nat.lt_succ_self _)
  have hmod : i % cs < cs := Nat.mod_lt _ hcs
  have hdm : i / cs * cs + i % cs = i := by
    have h0 := Nat.div_add_mod i cs
    rw [Nat.mul_comm] at h0
    exact h0
  unfold chunkRanges chunkStarts
  rw [List.countP_map, List.countP_map]
  have hcong : ∀ j ∈ List.range ((n + cs - 1) / cs),
      ((inChunk i ∘ fun s => (s, min n (s + cs))) ∘ (· * cs)) j = (j == i / cs) := by
    intro j _
    simp only [Function.comp, inChunk]
    by_cases hj : j = i / cs
    · subst hj
      have hle : i / cs * cs ≤ i := Nat.div_mul_le_self i cs
      have hlt : i < i / cs * cs + cs := by omega
      simp [hle, lt_min_iff, hi, hlt]
    · have hnot : ¬(j * cs ≤ i ∧ i < n ∧ i < j * cs + cs) := by
        rintro ⟨hl, _, hr⟩
        exact hj ((Nat.div_eq_of_lt_le hl (by rw [Nat.succ_mul]; omega)).symm ▸ rfl)
      have hfalse : (j == i / cs) = false := by simp [hj]
      rw [hfalse]
      by_cases hA : j * cs ≤ i
      · by_cases hC : i < j * cs + cs
        · exact absurd ⟨hA, hi, hC⟩ hnot
        · simp [hC]
      · simp [hA]
  rw [countP_congr_mem _ _ _ hcong]
  have hcount : (List.range ((n + cs - 1) / cs)).countP (fun j => j == i / cs)
      = (List.range ((n + cs - 1) / cs)).count (i / cs) := rfl
  rw [hcount]
  exact List.count_eq_one_of_mem (List.nodup_range _) (List.mem_range.mpr hdivK)

/-- Witness for C4: five voxels, chunk size two, voxel index three. -/
theorem chunks_cover_each_voxel_once_witness :
    (chunkRanges 5 2).countP (inChunk 3) = 1 :=
  chunks_cover_each_voxel_once 5 2 3 (by decide) (by decide)

theorem grainFold_apply (score : ℕ → ℕ → ℚ) (icrd : ℕ) :
    ∀ (nG : ℕ) (M : ℕ → ℕ → ℚ) (g i : ℕ),
      ((List.range nG).foldl (fun M2 igrn => writeCell M2 igrn icrd (score igrn icrd)) M) g i
        = if g < nG ∧ i = icrd then score g i else M g i := by
  intro nG
  induction nG with
  | zero =>
      intro M g i
      rw [List.range_zero, List.foldl_nil, if_neg (by omega)]
  | succ m ih =>
      intro M g i
      rw [List.range_succ, List.foldl_append, List.foldl_cons, List.foldl_nil]
      by_cases h1 : g = m ∧ i = icrd
      · obtain ⟨hg, hi2⟩ := h1
        subst hg
        subst hi2
        simp [writeCell]
      · simp only [writeCell, if_neg h1]
        rw [ih M g i]
        split_ifs <;> first | rfl | omega

theorem innerFold_apply (score : ℕ → ℕ → ℚ) (nG : ℕ) :
    ∀ (len start : ℕ) (M : ℕ → ℕ → ℚ) (g i : ℕ),
      ((List.range' start len).foldl
          (fun M1 icrd =>
            (List.range nG).foldl
              (fun M2 igrn => writeCell M2 igrn icrd (score igrn icrd)) M1) M) g i
        = if start ≤ i ∧ i < start + len ∧ g < nG then score g i else M g i := by
  intro len
  induction len with
  | zero =>
      intro start M g i
      rw [show List.range' start 0 = [] from rfl, List.foldl_nil, if_neg (by omega)]
  | succ m ih =>
      intro start M g i
      have hr : List.range' start (m + 1) = start :: List.range' (start + 1) m :=
        List.range'_succ start m 1 ▸ rfl
      rw [hr, List.foldl_cons, ih (start + 1) _ g i, grainFold_apply]
      split_ifs <;> first | rfl | omega

theorem runChunks_apply (score : ℕ → ℕ → ℚ) (nG : ℕ) :
    ∀ (l : List (ℕ × ℕ)) (M : ℕ → ℕ → ℚ) (g i : ℕ),
      runChunks score nG M l g i
        = if g < nG ∧ coveredBy l i then score g i else M g i := by
  intro l
  induction l with
  | nil =>
      intro M g i
      rw [runChunks, List.foldl_nil, if_neg ?_]
      rintro ⟨-, c, hc, -⟩
      exact (List.not_mem_nil c) hc
  | cons c t ih =>
      intro M g i
      show runChunks score nG (_grand_loop_inner score nG M c.1 c.2) t g i = _
      rw [ih]
      have hinner : _grand_loop_inner score nG M c.1 c.2 g i
          = if c.1 ≤ i ∧ i < c.1 + (c.2 - c.1) ∧ g < nG then score g i else M g i := by
        rw [_grand_loop_inner, innerFold_apply]
      have hcov : coveredBy (c :: t) i ↔ (c.1 ≤ i ∧ i < c.1 + (c.2 - c.1)) ∨ coveredBy t i := by
        constructor
        · rintro ⟨d, hd, h⟩
          rcases List.mem_cons.mp hd with hdc | hdt
          · exact Or.inl (hdc ▸ h)
          · exact Or.inr ⟨d, hdt, h⟩
        · rintro (h | ⟨d, hd, h⟩)
          · exact ⟨c, List.mem_cons_self c t, h⟩
          · exact ⟨d, List.mem_cons_of_mem c hd, h⟩
      by_cases h1 : g < nG
      · by_cases h2 : coveredBy t i
        · simp [hcov, h1, h2]
        · by_cases h3 : c.1 ≤ i ∧ i < c.1 + (c.2 - c.1)
          · simp [hcov, h1, h2, h3, hinner]
          · simp [hcov, h1, h2, h3, hinner]
      · simp [hcov, h1, hinner]

/-- C5: for a fixed per-cell score function (the pure projection and
confidence computation determined by the image volume, angle tables,
coordinates and experiment), executing `_grand_loop_inner` over the grand
loop's chunks in any permutation of the chunk list — the serial order being
one such order, a parallel completion order another — produces an identical
confidence matrix, because each cell is written exactly once, by exactly one
chunk. -/
theorem confidence_order_independent (score : ℕ → ℕ → ℚ) (nG n cs : ℕ)
    (M0 : ℕ → ℕ → ℚ) (l2 : List (ℕ × ℕ)) (hperm : l2.Perm (chunkRanges n cs)) :
    runChunks score nG M0 l2 = runChunks score nG M0 (chunkRanges n cs) := by
  funext g i
  rw [runChunks_apply, runChunks_apply]
  have hcov : coveredBy l2 i ↔ coveredBy (chunkRanges n cs) i := by
    constructor
    · rintro ⟨c, hc, h⟩
      exact ⟨c, hperm.mem_iff.mp hc, h⟩
    · rintro ⟨c, hc, h⟩
      exact ⟨c, hperm.mem_iff.mpr hc, h⟩
  rw [if_congr (and_congr_right fun _ => hcov) rfl rfl]

/-- Witness for C5: the three chunks of five voxels at chunk size two,
executed in a permuted order. -/
theorem confidence_order_independent_witness :
    runChunks sampleScore 2 zeroMatrix [(2, 4), (0, 2), (4, 5)]
      = runChunks sampleScore 2 zeroMatrix (chunkRanges 5 2) :=
  confidence_order_independent sampleScore 2 5 2 zeroMatrix [(2, 4), (0, 2), (4, 5)]
    (by decide)

theorem dil_fold (rd cd : ℕ) :
    ∀ (l : List ℕ) (s : DilationState),
      (l.foldl (dilateStep rd cd) s).src = s.src ∧
      (l.foldl (dilateStep rd cd) s).dst
        = l.foldl (fun d i => d.set i (ski_dilation rd cd (s.src.getD i []))) s.dst := by
  intro l
  induction l with
  | nil => intro s; exact ⟨rfl, rfl⟩
  | cons a t ih =>
      intro s
      rw [List.foldl_cons, List.foldl_cons]
      exact ih (dilateStep rd cd s a)

/-- C7: the dilation pass of the grand loop reads the source stack and writes
only into the separately allocated output buffer (`np.empty_like`): after the
pass the source field holds exactly the input stack, unchanged, and the
output field is the fold of per-frame writes of dilations of the original
source frames over the initial (uninitialised) buffer. -/
theorem dilation_pass_preserves_source (rd cd : ℕ)
    (stack dst0 : List (List (List Bool))) :
    (dilation_pass rd cd stack dst0).src = stack ∧
    (dilation_pass rd cd stack dst0).dst
      = (List.range stack.length).foldl
          (fun d i => d.set i (ski_dilation rd cd (stack.getD i []))) dst0 :=
  dil_fold rd cd (List.range stack.length) ⟨stack, dst0⟩

theorem getD_take_lt (l : List ℚ) (n i : ℕ) (h : i < n) :
    (l.take n).getD i 0 = l.getD i 0 := by
  simp [List.getD, List.getElem?_take, h]

theorem np_allclose_iff : ∀ (a b : List ℚ),
    np_allclose a b = true ↔
      ∀ i, i < min a.length b.length → np_isclose (a.getD i 0) (b.getD i 0) = true := by
  intro a
  induction a with
  | nil => intro b; simp [np_allclose]
  | cons x t ih =>
      intro b
      cases b with
      | nil => simp [np_allclose]
      | cons y u =>
          simp only [np_allclose, List.zip_cons_cons, List.all_cons, Bool.and_eq_true]
          constructor
          · rintro ⟨h0, hrest⟩ i hi
            cases i with
            | zero => simpa using h0
            | succ j =>
                have hj : j < min t.length u.length := by
                  simp only [List.length_cons] at hi
                  omega
                have hstep := (ih u).mp hrest j hj
                simpa using hstep
          · intro h
            refine ⟨?_, (ih u).mpr ?_⟩
            · have h0 := h 0 (by simp only [List.length_cons]; omega)
              simpa using h0
            · intro j hj
              have hstep := h (j + 1) (by simp only [List.length_cons]; omega)
              simpa using hstep

/-- C8: for a checked key whose reference array is present, the checking
result handler truncates the produced value and the reference to the shorter
length and compares element-wise with tolerance; the verdict is FAIL iff some
element of the comparison window differs beyond tolerance, PARTIAL PASS iff
the window matches and the produced value is longer than the window, and FULL
PASS otherwise. -/
theorem checking_result_spec (key : String) (refs : String → Option (List ℚ))
    (value r : List ℚ) (hkey : ¬(key = "experiment" ∨ key = "image_stack"))
    (href : refs key = some r) :
    (checking_handle_result key refs value = some CheckVerdict.fail
      ↔ ∃ i, i < min r.length value.length ∧
          np_isclose (value.getD i 0) (r.getD i 0) = false)
    ∧ (checking_handle_result key refs value = some CheckVerdict.passTrunc
      ↔ ((∀ i, i < min r.length value.length →
            np_isclose (value.getD i 0) (r.getD i 0) = true)
          ∧ min r.length value.length < value.length))
    ∧ (checking_handle_result key refs value = some CheckVerdict.passFull
      ↔ ((∀ i, i < min r.length value.length →
            np_isclose (value.getD i 0) (r.getD i 0) = true)
          ∧ value.length ≤ min r.length value.length)) := by
  have hts : np_allclose (value.take (min r.length value.length))
        (r.take (min r.length value.length)) = true
      ↔ ∀ i, i < min r.length value.length →
          np_isclose (value.getD i 0) (r.getD i 0) = true := by
    rw [np_allclose_iff]
    have hmin : min (value.take (min r.length value.length)).length
        (r.take (min r.length value.length)).length = min r.length value.length := by
      simp only [List.length_take]
      omega
    rw [hmin]
    constructor
    · intro h i hi
      have hstep := h i hi
      rwa [getD_take_lt _ _ _ hi, getD_take_lt _ _ _ hi] at hstep
    · intro h i hi
      rw [getD_take_lt _ _ _ hi, getD_take_lt _ _ _ hi]
      exact h i hi
  simp only [checking_handle_result, if_neg hkey, href]
  by_cases hpass : np_allclose (value.take (min r.length value.length))
      (r.take (min r.length value.length)) = true
  · rw [if_neg (by simp [hpass])]
    by_cases hlen : min r.length value.length < value.length
    · rw [if_pos hlen]
      refine ⟨?_, ?_, ?_⟩
      · simp only [Option.some_inj]
        constructor
        · intro h
          exact absurd h (by decide)
        · rintro ⟨i, hi, hbad⟩
          have := hts.mp hpass i hi
          rw [this] at hbad
          cases hbad
      · exact iff_of_true rfl ⟨hts.mp hpass, hlen⟩
      · simp only [Option.some_inj]
        constructor
        · intro h
          exact absurd h (by decide)
        · rintro ⟨-, hle⟩
          omega
    · rw [if_neg hlen]
      refine ⟨?_, ?_, ?_⟩
      · simp only [Option.some_inj]
        constructor
        · intro h
          exact absurd h (by decide)
        · rintro ⟨i, hi, hbad⟩
          have := hts.mp hpass i hi
          rw [this] at hbad
          cases hbad
      · simp only [Option.some_inj]
        constructor
        · intro h
          exact absurd h (by decide)
        · rintro ⟨-, hlt⟩
          exact absurd hlt hlen
      · simp only [Option.some_inj, true_iff]
        exact ⟨hts.mp hpass, by omega⟩
  · rw [if_pos (by simpa using hpass)]
    have hex : ∃ i, i < min r.length value.length ∧
        np_isclose (value.getD i 0) (r.getD i 0) = false := by
      by_contra hno
      push_neg at hno
      exact hpass (hts.mpr fun i hi => by
        have := hno i hi
        cases hb : np_isclose (value.getD i 0) (r.getD i 0)
        · exact absurd hb this
        · rfl)
    refine ⟨?_, ?_, ?_⟩
    · exact iff_of_true rfl hex
    · simp only [Option.some_inj]
      constructor
      · intro h
        exact absurd h (by decide)
      · rintro ⟨hall, -⟩
        exact absurd (hts.mpr hall) hpass
    · simp only [Option.some_inj]
      constructor
      · intro h
        exact absurd h (by decide)
      · rintro ⟨hall, -⟩
        exact absurd (hts.mpr hall) hpass

/-- Witness for C8: key `confidence`, reference `[1/2, 1/2]`, produced value
`[1/2, 1/2, 3]` — the window matches and the value is longer, a PARTIAL
PASS. -/
theorem checking_result_spec_witness :
    checking_handle_result "confidence" sampleRefs sampleValue = some CheckVerdict.passTrunc
      ↔ ((∀ i, i < min ([1/2, 1/2] : List ℚ).length sampleValue.length →
            np_isclose (sampleValue.getD i 0) (([1/2, 1/2] : List ℚ).getD i 0) = true)
          ∧ min ([1/2, 1/2] : List ℚ).length sampleValue.length < sampleValue.length) :=
  (checking_result_spec "confidence" sampleRefs sampleValue [1/2, 1/2]
    (by decide) rfl).2.1

/-- C9: contrary to the contract that degenerate (zero-magnitude or colinear)
beam/eta vectors are passed through without raising, every call of
`make_beam_rmat` — degenerate input or not — raises: the statement
`out[i, 2] = -bvec_l[i] / bvec_mag` at line 430 reads the local `out` before
its only assignment at line 445, an `UnboundLocalError`.  In particular the
zero beam vector `(0, 0, 0)` raises instead of flowing through to a sentinel
result. -/
theorem make_beam_rmat_raises (bvec_l evec_l : ℚ × ℚ × ℚ) :
    make_beam_rmat bvec_l evec_l
      = Except.error "UnboundLocalError: local variable out referenced before assignment" :=
  rfl

/-- C10: with the default `controller=None`, `get_simulate_diffractions`
raises an `AttributeError` on both execution paths: when the cache load
succeeds, at the unconditional `controller.handle_result('image_stack', ...)`
call; when the cache load fails, already at `controller.start` inside
`simulate_diffractions`.  A non-None controller is therefore a precondition
of the entry point even when no simulation is performed. -/
theorem get_simulate_requires_controller (P : QuantParams)
    (projected : List (List RPoint)) (img : ℤ → ℤ → ℤ → Bool) :
    get_simulate_diffractions (CacheLoad.ok img) P projected none
        = Except.error "AttributeError: NoneType object has no attribute handle_result"
    ∧ get_simulate_diffractions CacheLoad.failed P projected none
        = Except.error "AttributeError: NoneType object has no attribute start" :=
  ⟨rfl, rfl⟩

end NfSim
